import Mathlib

/-!
Shallow embedding of `src/graph.py` (weighted graph with DFS/BFS shortest-path
traversal), used to check the repository's natural-language specification.

Modelling conventions:
* Edge weights (Python `float`; every weight in the repository and its tests is
  an exact dyadic value such as 0.5 or 2.0) are modelled as rationals `ℚ`.
* Python `dict`s (insertion ordered) are association lists; `defaultdict`
  reads are state passing: reading a missing key inserts the default value,
  so every read of a `defaultdict` returns the value *and* the updated map.
* Python generators are materialised into lists.  For the executions verified
  here this is faithful: the only graph mutation a running traversal performs
  is insertion of empty adjacency entries, which changes no later lookup.
* Exceptions (`KeyError`, `IndexError`, `NotImplementedError` from the edge
  factory) are `none` / dedicated error constructors.
* The traversal loops and the recursive DFS take a fuel parameter; `nofuel`
  for every fuel witnesses non-termination of the Python original.
* Python's `deque` is a `List Edge` whose *head* is the deque's right end:
  `append`/a push is `cons`, `appendleft` is appending at the list's tail,
  and `pop()` (from the right) takes the head.
-/

namespace GraphPy

/-- `Vertex` dataclass: equality and hash are by `name`. -/
structure Vertex where
  name : String
deriving DecidableEq, Repr

/-- The two edge dataclasses `DirectedEdge` and `UndirectedEdge`, as one sum.
`UndirectedEdge.__post_init__` canonicalises the endpoint order; in this
embedding that happens in `mkUndirectedEdge`, the only construction site. -/
inductive Edge where
  | DirectedEdge (vertex1 vertex2 : Vertex) (weight : ℚ)
  | UndirectedEdge (vertex1 vertex2 : Vertex) (weight : ℚ)
deriving DecidableEq, Repr

def Edge.vertex1 : Edge → Vertex
  | .DirectedEdge v1 _ _ => v1
  | .UndirectedEdge v1 _ _ => v1

def Edge.vertex2 : Edge → Vertex
  | .DirectedEdge _ v2 _ => v2
  | .UndirectedEdge _ v2 _ => v2

def Edge.weight : Edge → ℚ
  | .DirectedEdge _ _ w => w
  | .UndirectedEdge _ _ w => w

def Edge.isDirectedEdge : Edge → Bool
  | .DirectedEdge _ _ _ => true
  | .UndirectedEdge _ _ _ => false

/-- `UndirectedEdge.__post_init__`: swap the endpoints when
`vertex2.name < vertex1.name`. -/
def mkUndirectedEdge (vertex1 vertex2 : Vertex) (weight : ℚ) : Edge :=
  if vertex2.name < vertex1.name then .UndirectedEdge vertex2 vertex1 weight
  else .UndirectedEdge vertex1 vertex2 weight

/-- `edge_factory`: raises `NotImplementedError` (here `none`) on a
self-loop, otherwise builds a directed or undirected edge per the flag.
The Python default for `directed` is `True`. -/
def edge_factory (vertex_name1 vertex_name2 : String) (weight : ℚ)
    (directed : Bool) : Option Edge :=
  if vertex_name1 = vertex_name2 then none
  else if directed then some (.DirectedEdge ⟨vertex_name1⟩ ⟨vertex_name2⟩ weight)
  else some (mkUndirectedEdge ⟨vertex_name1⟩ ⟨vertex_name2⟩ weight)

/-- Insertion-ordered association list lookup (`dict.__getitem__` /
`dict.get`). -/
def alistLookup {α β : Type} [DecidableEq α] : List (α × β) → α → Option β
  | [], _ => none
  | (k2, v) :: rest, k => if k = k2 then some v else alistLookup rest k

/-- Insertion-ordered association list assignment (`dict.__setitem__`):
an existing key keeps its position, a new key is appended. -/
def alistSet {α β : Type} [DecidableEq α] : List (α × β) → α → β → List (α × β)
  | [], k, v => [(k, v)]
  | (k2, v2) :: rest, k, v =>
    if k = k2 then (k, v) :: rest else (k2, v2) :: alistSet rest k v

/-- A vertex's inner adjacency dict: neighbor vertex ↦ edge. -/
abbrev AdjInner := List (Vertex × Edge)

/-- The outer adjacency `defaultdict(dict)`: vertex ↦ inner dict. -/
abbrev AdjList := List (Vertex × AdjInner)

/-- A recorded path: ordered vertex sequence from the traversal source. -/
abbrev VertexSeq := List Vertex

/-- The per-traversal visited map, a `defaultdict(tuple)`:
vertex ↦ best known path (empty = unvisited). -/
abbrev Visited := List (Vertex × VertexSeq)

/-- `Graph.__init__`: name, directedness flag, adjacency `defaultdict`. -/
structure Graph where
  name : String
  directed : Bool
  adjacency_list : AdjList
deriving DecidableEq, Repr

/-- `defaultdict` read of the outer adjacency map: a missing vertex is
inserted with an empty inner dict (this is the frame effect of claim C9). -/
def Graph.dget (g : Graph) (v : Vertex) : AdjInner × Graph :=
  match alistLookup g.adjacency_list v with
  | some inner => (inner, g)
  | none => ([], { g with adjacency_list := g.adjacency_list ++ [(v, [])] })

/-- `defaultdict(tuple)` read of the visited map: a missing vertex is
inserted with the empty path. -/
def vget (visited : Visited) (v : Vertex) : VertexSeq × Visited :=
  match alistLookup visited v with
  | some p => (p, visited)
  | none => ([], visited ++ [(v, [])])

/-- `Graph.add_edge`: builds the edge through `edge_factory` with the
factory's default `directed=True` and stores it under the edge's `vertex1`,
keyed by its `vertex2`.  A self-loop propagates the factory's error. -/
def Graph.add_edge (g : Graph) (vertex1 vertex2 : String) (weight : ℚ) :
    Option Graph :=
  match edge_factory vertex1 vertex2 weight true with
  | none => none
  | some edge =>
    let p := g.dget edge.vertex1
    let g1 := p.2
    let adj := alistSet g1.adjacency_list edge.vertex1 (alistSet p.1 edge.vertex2 edge)
    some { g1 with adjacency_list := adj }

/-- `Graph.neighbors`, materialised: first every `(neighbor, edge)` of the
target's own adjacency entry; then, when the graph is undirected, every
`(vertex1, edge)` found by scanning all adjacency entries for edges whose
stored `vertex2` is the target. -/
def Graph.neighbors (g : Graph) (target_vertex : Vertex) :
    List (Vertex × Edge) × Graph :=
  let p := g.dget target_vertex
  if p.2.directed then (p.1, p.2)
  else
    (p.1 ++ p.2.adjacency_list.filterMap (fun q =>
      match alistLookup q.2 target_vertex with
      | some e => some (q.1, e)
      | none => none), p.2)

/-- Loop of `Graph.total_vertex_sequence_weight`: walk consecutive pairs,
looking each edge up in the adjacency map (`KeyError` = `none`); the
`defaultdict` read of the outer map is state passing. -/
def tvswGo (g : Graph) (vertex1 : Vertex) (rest : List Vertex) (weight : ℚ) :
    Option ℚ × Graph :=
  match rest with
  | [] => (some weight, g)
  | vertex2 :: rest2 =>
    let p := g.dget vertex1
    match alistLookup p.1 vertex2 with
    | none => (none, p.2)
    | some edge => tvswGo p.2 vertex2 rest2 (weight + edge.weight)

/-- `Graph.total_vertex_sequence_weight` (memoisation dropped: the function
is a pure function of graph and sequence).  The empty sequence raises
`IndexError` at `vertex_sequence[0]`. -/
def Graph.total_vertex_sequence_weight (g : Graph) (vertex_sequence : VertexSeq) :
    Option ℚ × Graph :=
  match vertex_sequence with
  | [] => (none, g)
  | vertex1 :: rest => tvswGo g vertex1 rest 0

/-- `Graph.min_vertex_sequence_weight`: computes both total weights and
returns `sequence1` when it is strictly lighter, otherwise `sequence2`. -/
def Graph.min_vertex_sequence_weight (g : Graph)
    (sequence1 sequence2 : VertexSeq) : Option VertexSeq × Graph :=
  let p1 := g.total_vertex_sequence_weight sequence1
  match p1.1 with
  | none => (none, p1.2)
  | some sequence1_weight =>
    let p2 := p1.2.total_vertex_sequence_weight sequence2
    match p2.1 with
    | none => (none, p2.2)
    | some sequence2_weight =>
      (some (if sequence1_weight < sequence2_weight then sequence1 else sequence2),
       p2.2)

/-- `Graph.visit_vertex_neighbors`: the revisit/relaxation rule.  Returns
(whether to (re)explore `v`'s neighbors, updated visited map) plus the
graph (whose `defaultdict` may gain empty entries inside the weight
computation); `none` when a weight lookup raised. -/
def Graph.visit_vertex_neighbors (g : Graph) (v from_vertex : Vertex)
    (visited : Visited) : Option (Bool × Visited) × Graph :=
  let pv := vget visited v
  if pv.1 = [] then
    let pf := vget pv.2 from_vertex
    (some (true, alistSet pf.2 v (pf.1 ++ [v])), g)
  else
    let pf := vget pv.2 from_vertex
    let new_path := pf.1 ++ [v]
    let pm := g.min_vertex_sequence_weight pv.1 new_path
    match pm.1 with
    | none => (none, pm.2)
    | some m => (some (decide (m = new_path), alistSet pf.2 v m), pm.2)

/-- Body of `Graph.push_unvisited_neighbors`: visit each neighbor edge's
`vertex2` from its `vertex1`, pushing the edge (deque `append`, i.e. `cons`
in the reversed representation) whenever the visit asks for exploration. -/
def pushFold (g : Graph) (pairs : List (Vertex × Edge)) (s : List Edge)
    (visited : Visited) : Option (List Edge × Visited) × Graph :=
  match pairs with
  | [] => (some (s, visited), g)
  | (_, edge) :: rest =>
    let r := g.visit_vertex_neighbors edge.vertex2 edge.vertex1 visited
    match r.1 with
    | none => (none, r.2)
    | some (b, visited1) =>
      pushFold r.2 rest (if b then edge :: s else s) visited1

/-- `Graph.push_unvisited_neighbors`. -/
def Graph.push_unvisited_neighbors (g : Graph) (vertex : Vertex)
    (s : List Edge) (visited : Visited) : Option (List Edge × Visited) × Graph :=
  let p := g.neighbors vertex
  pushFold p.2 p.1 s visited

/-- Body of `Graph.enqueue_unvisited_neighbors`: as `pushFold` but with
deque `appendleft` (appending at the tail in the reversed representation). -/
def enqueueFold (g : Graph) (pairs : List (Vertex × Edge)) (q : List Edge)
    (visited : Visited) : Option (List Edge × Visited) × Graph :=
  match pairs with
  | [] => (some (q, visited), g)
  | (_, edge) :: rest =>
    let r := g.visit_vertex_neighbors edge.vertex2 edge.vertex1 visited
    match r.1 with
    | none => (none, r.2)
    | some (b, visited1) =>
      enqueueFold r.2 rest (if b then q ++ [edge] else q) visited1

/-- `Graph.enqueue_unvisited_neighbors`. -/
def Graph.enqueue_unvisited_neighbors (g : Graph) (vertex : Vertex)
    (q : List Edge) (visited : Visited) : Option (List Edge × Visited) × Graph :=
  let p := g.neighbors vertex
  enqueueFold p.2 p.1 q visited

/-- Result of a traversal: the final visited map and graph, a propagated
exception, or fuel exhaustion (the Python loop/recursion still running). -/
inductive TravRes where
  | ok (visited : Visited) (g : Graph)
  | raised
  | nofuel
deriving DecidableEq, Repr

/-- `while s:` loop of `Graph.dfs_non_recursive`: pop the most recently
pushed edge (head of the reversed deque) and push the unvisited neighbors
of its `vertex2`. -/
def dfsNonRecLoop : Nat → Graph → List Edge → Visited → TravRes
  | _, g, [], visited => .ok visited g
  | 0, _, _ :: _, _ => .nofuel
  | fuel+1, g, edge :: s1, visited =>
    let r := g.push_unvisited_neighbors edge.vertex2 s1 visited
    match r.1 with
    | none => .raised
    | some (s2, visited1) => dfsNonRecLoop fuel r.2 s2 visited1

/-- `Graph.dfs_non_recursive`. -/
def Graph.dfs_non_recursive (g : Graph) (fuel : Nat) (vertex : Vertex)
    (visited : Visited) : TravRes :=
  let r := g.push_unvisited_neighbors vertex [] visited
  match r.1 with
  | none => .raised
  | some (s, visited1) => dfsNonRecLoop fuel r.2 s visited1

/-- A pending piece of work of the recursive `Graph.dfs`: either a call
`dfs(vertex, visited)`, or the rest of a neighbor list whose prefix has
already been processed. -/
inductive DfsFrame where
  | atVertex (vertex : Vertex)
  | onPairs (pairs : List (Vertex × Edge))

/-- Recursive `Graph.dfs`, fuelled: at a vertex, enumerate its neighbors;
for each neighbor edge visit `edge.vertex2` from `edge.vertex1` and, when
the visit asks for exploration, recurse into the yielded neighbor vertex
before continuing with the remaining neighbors. -/
def dfsRec : Nat → Graph → DfsFrame → Visited → TravRes
  | 0, _, _, _ => .nofuel
  | fuel+1, g, .atVertex vertex, visited =>
    let p := g.neighbors vertex
    dfsRec fuel p.2 (.onPairs p.1) visited
  | _+1, g, .onPairs [], visited => .ok visited g
  | fuel+1, g, .onPairs ((neighbor_vertex, edge) :: rest), visited =>
    let r := g.visit_vertex_neighbors edge.vertex2 edge.vertex1 visited
    match r.1 with
    | none => .raised
    | some (b, visited1) =>
      if b then
        match dfsRec fuel r.2 (.atVertex neighbor_vertex) visited1 with
        | .ok visited2 g2 => dfsRec fuel g2 (.onPairs rest) visited2
        | other => other
      else dfsRec fuel r.2 (.onPairs rest) visited1

/-- `Graph.dfs_traversal`: fresh visited map, initial self-visit of the
starting vertex, then the recursive or the non-recursive DFS. -/
def Graph.dfs_traversal (g : Graph) (starting_vertex : Vertex)
    (recursive : Bool) (fuel : Nat) : TravRes :=
  let r := g.visit_vertex_neighbors starting_vertex starting_vertex []
  match r.1 with
  | none => .raised
  | some (_, visited) =>
    if recursive then dfsRec fuel r.2 (.atVertex starting_vertex) visited
    else r.2.dfs_non_recursive fuel starting_vertex visited

/-- `while q:` loop of `Graph.bfs`: pop from the right, enqueue new work on
the left (FIFO). -/
def bfsLoop : Nat → Graph → List Edge → Visited → TravRes
  | _, g, [], visited => .ok visited g
  | 0, _, _ :: _, _ => .nofuel
  | fuel+1, g, edge :: q1, visited =>
    let r := g.enqueue_unvisited_neighbors edge.vertex2 q1 visited
    match r.1 with
    | none => .raised
    | some (q2, visited1) => bfsLoop fuel r.2 q2 visited1

/-- `Graph.bfs`. -/
def Graph.bfs (g : Graph) (fuel : Nat) (vertex : Vertex) (visited : Visited) :
    TravRes :=
  let r := g.enqueue_unvisited_neighbors vertex [] visited
  match r.1 with
  | none => .raised
  | some (q, visited1) => bfsLoop fuel r.2 q visited1

/-- `Graph.bfs_traversal`. -/
def Graph.bfs_traversal (g : Graph) (starting_vertex : Vertex) (fuel : Nat) :
    TravRes :=
  let r := g.visit_vertex_neighbors starting_vertex starting_vertex []
  match r.1 with
  | none => .raised
  | some (_, visited) => r.2.bfs fuel starting_vertex visited

/-- Result of `Graph.shortest_path`: the recorded path to the target, the
*returned* `NotImplementedError` value for an unknown strategy, a raised
exception, or fuel exhaustion. -/
inductive SPRes where
  | path (p : VertexSeq)
  | notImplementedErr
  | raised
  | nofuel
deriving DecidableEq, Repr

/-- The final `return visited[vertex2]` of `shortest_path`: a `defaultdict`
read, so an unvisited target yields the empty sequence. -/
def extractPath (r : TravRes) (vertex2 : Vertex) : SPRes :=
  match r with
  | .ok visited _ => .path ((alistLookup visited vertex2).getD [])
  | .raised => .raised
  | .nofuel => .nofuel

/-- `Graph.shortest_path`: dispatch on the strategy name, or return the
`NotImplementedError` value without running any traversal. -/
def Graph.shortest_path (g : Graph) (vtx_name1 vtx_name2 : String)
    (search : String) (fuel : Nat) : SPRes :=
  let vertex1 : Vertex := ⟨vtx_name1⟩
  let vertex2 : Vertex := ⟨vtx_name2⟩
  if search = "dfs-nonrecursive" then
    extractPath (g.dfs_traversal vertex1 false fuel) vertex2
  else if search = "dfs-recursive" then
    extractPath (g.dfs_traversal vertex1 true fuel) vertex2
  else if search = "bfs" then
    extractPath (g.bfs_traversal vertex1 fuel) vertex2
  else .notImplementedErr

/-! ### Concrete graphs from `test_graph.py` and the claims -/

/-- Fold `add_edge` over an edge list, keeping the graph unchanged on a
factory error (never hit for the concrete graphs below). -/
def buildGraph (name : String) (directed : Bool)
    (edges : List (String × String × ℚ)) : Graph :=
  edges.foldl (fun g e => (g.add_edge e.1 e.2.1 e.2.2).getD g)
    ⟨name, directed, []⟩

def va : Vertex := ⟨"a"⟩
def vb : Vertex := ⟨"b"⟩
def vc : Vertex := ⟨"c"⟩
def vd : Vertex := ⟨"d"⟩

/-- The directed triangle graph built in `test_graph.py` (the `Graph`
constructor's `directed` flag defaults to `True`). -/
def triangle : Graph :=
  buildGraph "triangle" true [("a", "b", 1/2), ("a", "c", 1/2), ("b", "c", 1/2)]

/-- The triangle with the same edges on an *undirected* graph, as claim C5
and §8 of the spec describe it. -/
def triangleUndirected : Graph :=
  buildGraph "triangle" false [("a", "b", 1/2), ("a", "c", 1/2), ("b", "c", 1/2)]

/-- The (non-complete) diamond graph of `test_graph.py`. -/
def diamond : Graph :=
  buildGraph "diamond" true
    [("a", "b", 1/2), ("a", "c", 2), ("b", "d", 1/2), ("c", "d", 2)]

/-- The fully connected diamond of `test_graph.py` and claims C1/C2/C3/C6. -/
def complete_diamond : Graph :=
  buildGraph "complete-diamond" true
    [("a", "b", 1/2), ("a", "c", 2), ("b", "d", 2), ("c", "d", 1/2),
     ("b", "c", 1/2), ("a", "d", 2)]

/-- A single undirected edge a–b: the smallest graph on which the
traversals fail to terminate (claim C4). -/
def edgeABUndirected : Graph :=
  buildGraph "ab" false [("a", "b", 1/2)]

/-! ### Auxiliary definitions for the claims -/

/-- Keys of the outer adjacency dict, in iteration (insertion) order. -/
def adjKeys (g : Graph) : List Vertex := g.adjacency_list.map Prod.fst

/-- Python `dict` equality of two visited maps (the key sets here are
duplicate-free): same keys with the same recorded paths, order ignored. -/
def dictEqb (m1 m2 : Visited) : Bool :=
  m1.all (fun q => alistLookup m2 q.1 == some q.2) &&
    m2.all (fun q => alistLookup m1 q.1 == some q.2)

/-- Did the traversal finish with `v`'s recorded path equal to `p`? -/
def recordsPath (r : TravRes) (v : Vertex) (p : VertexSeq) : Bool :=
  match r with
  | .ok visited _ => alistLookup visited v == some p
  | _ => false

def TravRes.isOk : TravRes → Bool
  | .ok _ _ => true
  | _ => false

/-- The Python call never finishes: for every fuel the non-recursive DFS
traversal from `v` is still running. -/
def dfsNonRecursiveDiverges (g : Graph) (v : Vertex) : Prop :=
  ∀ fuel : Nat, g.dfs_traversal v false fuel = .nofuel

/-- All three traversal strategies drain their work within `fuel` steps on
the three directed graphs of `test_graph.py`, from each vertex name. -/
def terminatesOnRepoGraphs (fuel : Nat) : Bool :=
  [triangle, diamond, complete_diamond].all fun g =>
    ["a", "b", "c", "d"].all fun n =>
      (g.dfs_traversal ⟨n⟩ true fuel).isOk &&
        (g.dfs_traversal ⟨n⟩ false fuel).isOk && (g.bfs_traversal ⟨n⟩ fuel).isOk

/-- The consecutive pairs `(v_i, v_{i+1})` of a vertex sequence. -/
def consecutivePairs : List Vertex → List (Vertex × Vertex)
  | v1 :: v2 :: rest => (v1, v2) :: consecutivePairs (v2 :: rest)
  | _ => []

/-- The weight of the edge stored in the adjacency mapping under `p.1`,
keyed by `p.2`, when present (a pure read, no `defaultdict` insertion). -/
def storedEdgeWeight (g : Graph) (p : Vertex × Vertex) : Option ℚ :=
  match alistLookup g.adjacency_list p.1 with
  | none => none
  | some inner => (alistLookup inner p.2).map Edge.weight

/-- Claim C6's hypothesis: every consecutive pair of the sequence has a
stored edge. -/
def allPairsStored (g : Graph) (s : VertexSeq) : Bool :=
  (consecutivePairs s).all fun p => (storedEdgeWeight g p).isSome

/-- Claim C6's stated result, written from the spec's words: the sum of
the consecutive stored edge weights (the `getD 0` default is never used
under `allPairsStored`). -/
def specTotalWeight (g : Graph) (s : VertexSeq) : ℚ :=
  ((consecutivePairs s).map fun p => (storedEdgeWeight g p).getD 0).sum

/-- Are all stored edges `DirectedEdge`s (claim C10)? -/
def allDirectedEdges (g : Graph) : Bool :=
  g.adjacency_list.all fun q => q.2.all fun r => r.2.isDirectedEdge

/-! Steady loop states of the diverging executions (claims C4 and C5).
Both were reached by running the model: after one loop iteration the
non-recursive DFS work list, visited map and graph repeat verbatim. -/

def eab : Edge := .DirectedEdge va vb (1/2)
def eac : Edge := .DirectedEdge va vc (1/2)
def ebc : Edge := .DirectedEdge vb vc (1/2)

/-- `edgeABUndirected` after the loop's first iteration inserted the empty
adjacency entry for b. -/
def gABSteady : Graph := ⟨"ab", false, [(va, [(vb, eab)]), (vb, [])]⟩

def visitedABSteady : Visited := [(va, [va]), (vb, [va, vb])]

/-- `triangleUndirected` after the loop's first iteration inserted the
empty adjacency entry for c. -/
def gTriSteady : Graph :=
  ⟨"triangle", false, [(va, [(vb, eab), (vc, eac)]), (vb, [(vc, ebc)]), (vc, [])]⟩

def visitedTriSteady : Visited := [(va, [va]), (vb, [va, vb]), (vc, [va, vc])]

/-! ### Theorems -/

section ConcreteEvaluation

attribute [local semireducible] Rat.add Rat.mul Rat.inv

/-- C1: on the fully connected diamond (directed edges a-b=0.5, a-c=2.0,
b-d=2.0, c-d=0.5, b-c=0.5, a-d=2.0) the recursive DFS, the non-recursive
DFS and the BFS from `a` all finish and produce visited maps that are
equal as Python dicts, the path recorded for `d` is (a,b,c,d) — not (a,d)
and not (a,c,d) — and the three candidate paths weigh 1.5, 2.0 and 2.5. -/
theorem c1_three_traversals_agree_on_complete_diamond :
    (match complete_diamond.dfs_traversal va true 50,
        complete_diamond.dfs_traversal va false 50,
        complete_diamond.bfs_traversal va 50 with
      | .ok m1 _, .ok m2 _, .ok m3 _ =>
        dictEqb m1 m2 && dictEqb m2 m3 &&
          (alistLookup m1 vd == some [va, vb, vc, vd])
      | _, _, _ => false) = true ∧
    recordsPath (complete_diamond.dfs_traversal va false 50) vd [va, vd] = false ∧
    recordsPath (complete_diamond.dfs_traversal va false 50) vd [va, vc, vd] = false ∧
    (complete_diamond.total_vertex_sequence_weight [va, vb, vc, vd]).1 = some (3/2) ∧
    (complete_diamond.total_vertex_sequence_weight [va, vd]).1 = some 2 ∧
    (complete_diamond.total_vertex_sequence_weight [va, vc, vd]).1 = some (5/2) := by
  decide

/-- C2 (code bug): on the fully connected diamond with visited map
a↦(a), b↦(a,b), c↦(a,c), d↦(a,b,d), visiting d from c offers the
candidate (a,c,d) whose weight 2.5 *equals* the recorded (a,b,d)'s weight,
yet `visit_vertex_neighbors` replaces the recorded path by the candidate
and returns `True` although no strict improvement occurred — the claim
(and the function's own docstring) require keeping the existing path and
returning `False` here. -/
theorem c2_visit_tie_replaces_path_and_returns_true :
    (complete_diamond.total_vertex_sequence_weight [va, vb, vd]).1 = some (5/2) ∧
    (complete_diamond.total_vertex_sequence_weight [va, vc, vd]).1 = some (5/2) ∧
    (complete_diamond.visit_vertex_neighbors vd vc
        [(va, [va]), (vb, [va, vb]), (vc, [va, vc]), (vd, [va, vb, vd])]).1 =
      some (true, [(va, [va]), (vb, [va, vb]), (vc, [va, vc]), (vd, [va, vc, vd])]) := by
  decide

/-- C3 (code bug): `min_vertex_sequence_weight` applied to two distinct
sequences of equal total weight 2.5 returns the *second* argument, while
the claim (with the spec's explicit tie-break) says ties keep the first. -/
theorem c3_min_returns_second_sequence_on_tie :
    (complete_diamond.total_vertex_sequence_weight [va, vb, vd]).1 = some (5/2) ∧
    (complete_diamond.total_vertex_sequence_weight [va, vc, vd]).1 = some (5/2) ∧
    (complete_diamond.min_vertex_sequence_weight [va, vb, vd] [va, vc, vd]).1 =
      some [va, vc, vd] ∧
    [va, vc, vd] ≠ ([va, vb, vd] : VertexSeq) := by
  decide

/-- Loop invariant of the diverging run on the single undirected edge a–b:
from the steady state (work list [a→b], visited a↦(a), b↦(a,b)), each
iteration re-offers the path (a,b) to b, the tie makes the visit return
`True`, the edge is pushed back, and the state repeats verbatim. -/
theorem dfsLoop_ab_steady (n : Nat) :
    dfsNonRecLoop n gABSteady [eab] visitedABSteady = .nofuel := by
  induction n with
  | zero => rfl
  | succ k ih => exact ih

/-- C4 (counterexample): the non-recursive DFS from `a` on the undirected
single-edge graph a–b never drains its work list — for every fuel the
Python loop is still running, refuting "every traversal terminates on
every finite graph". -/
theorem c4_counterexample_undirected_edge_diverges :
    dfsNonRecursiveDiverges edgeABUndirected va := by
  intro fuel
  cases fuel with
  | zero => rfl
  | succ k => exact dfsLoop_ab_steady k

/-- C4 (amended): each of the three traversals does terminate from every
vertex a–d on the repository's three directed test graphs. -/
theorem c4_traversals_terminate_on_repo_graphs :
    terminatesOnRepoGraphs 60 = true := by
  decide

/-- Loop invariant of the diverging run on the undirected triangle: from
the steady state (work list [a→c, a→b], visited a↦(a), b↦(a,b), c↦(a,c)),
each iteration pops a→c, the reverse scan re-offers (a,c) to c, the tie
makes the visit return `True`, a→c is pushed back and the state repeats. -/
theorem dfsLoop_tri_steady (n : Nat) :
    dfsNonRecLoop n gTriSteady [eac, eab] visitedTriSteady = .nofuel := by
  induction n with
  | zero => rfl
  | succ k ih => exact ih

/-- C5 (code bug): on the triangle a-b=0.5, a-c=0.5, b-c=0.5 taken as an
*undirected* graph — exactly as the claim and §8 word it — `dfs_traversal`
from `a` never terminates; on the directed triangle actually built by
`test_graph.py` it does terminate with b↦(a,b) and c↦(a,c) as the claim
demands. -/
theorem c5_undirected_triangle_dfs_never_terminates :
    dfsNonRecursiveDiverges triangleUndirected va ∧
    recordsPath (triangle.dfs_traversal va false 20) vb [va, vb] = true ∧
    recordsPath (triangle.dfs_traversal va false 20) vc [va, vc] = true := by
  refine ⟨?_, by decide, by decide⟩
  intro fuel
  cases fuel with
  | zero => rfl
  | succ k => exact dfsLoop_tri_steady k

end ConcreteEvaluation

section RemainingClaims

attribute [local semireducible] Rat.add Rat.mul Rat.inv

/-- Generic association list fact: an assignment is seen by a lookup of
the same key. -/
theorem alistLookup_alistSet_self {α β : Type} [DecidableEq α]
    (m : List (α × β)) (k : α) (v : β) :
    alistLookup (alistSet m k v) k = some v := by
  induction m with
  | nil => simp [alistSet, alistLookup]
  | cons p rest ih =>
    obtain ⟨k2, v2⟩ := p
    by_cases h : k = k2
    · simp [alistSet, alistLookup, h]
    · simp [alistSet, alistLookup, h, ih]

/-- Generic association list fact: after an assignment every entry is the
assigned pair or one of the previous entries. -/
theorem mem_alistSet {α β : Type} [DecidableEq α]
    (m : List (α × β)) (k : α) (v : β) :
    ∀ x ∈ alistSet m k v, x = (k, v) ∨ x ∈ m := by
  induction m with
  | nil => intro x hx; simp [alistSet] at hx; exact Or.inl hx
  | cons p rest ih =>
    obtain ⟨k2, v2⟩ := p
    intro x hx
    by_cases h : k = k2
    · subst h
      simp [alistSet] at hx
      rcases hx with hx | hx
      · exact Or.inl hx
      · exact Or.inr (List.mem_cons_of_mem _ hx)
    · simp [alistSet, h] at hx
      rcases hx with hx | hx
      · exact Or.inr (by simp [hx])
      · rcases ih x hx with h1 | h1
        · exact Or.inl h1
        · exact Or.inr (List.mem_cons_of_mem _ h1)

/-- Generic association list fact: a successful lookup is a member. -/
theorem alistLookup_mem {α β : Type} [DecidableEq α]
    (m : List (α × β)) (k : α) (v : β) (h : alistLookup m k = some v) :
    (k, v) ∈ m := by
  induction m with
  | nil => simp [alistLookup] at h
  | cons p rest ih =>
    obtain ⟨k2, v2⟩ := p
    by_cases hk : k = k2
    · simp [alistLookup, hk] at h
      simp [hk, h]
    · simp [alistLookup, hk] at h
      exact List.mem_cons_of_mem _ (ih h)

/-- Soundness of the weight walk: when every consecutive pair is stored,
`tvswGo` adds exactly the stored edge weights to its accumulator and does
not touch the graph. -/
theorem tvswGo_all_stored (rest : List Vertex) :
    ∀ (g : Graph) (v : Vertex) (acc : ℚ),
      allPairsStored g (v :: rest) = true →
      tvswGo g v rest acc = (some (acc + specTotalWeight g (v :: rest)), g) := by
  induction rest with
  | nil =>
    intro g v acc _
    simp [tvswGo, specTotalWeight, consecutivePairs]
  | cons v2 rest2 ih =>
    intro g v acc h
    simp only [allPairsStored, consecutivePairs, List.all_cons,
      Bool.and_eq_true] at h
    obtain ⟨h1, h2⟩ := h
    rcases hl : alistLookup g.adjacency_list v with _ | inner
    · simp [storedEdgeWeight, hl] at h1
    · rcases he : alistLookup inner v2 with _ | e
      · simp [storedEdgeWeight, hl, he] at h1
      · have h2' : allPairsStored g (v2 :: rest2) = true := by
          simpa [allPairsStored] using h2
        simp only [tvswGo, Graph.dget, hl, he]
        rw [ih g v2 (acc + e.weight) h2']
        have hw : specTotalWeight g (v :: v2 :: rest2) =
            e.weight + specTotalWeight g (v2 :: rest2) := by
          simp [specTotalWeight, consecutivePairs, storedEdgeWeight, hl, he]
        rw [hw, add_assoc]

/-- Failure of the weight walk: when some consecutive pair is missing, the
first missing pair raises a `KeyError` and no weight is produced. -/
theorem tvswGo_missing_pair (rest : List Vertex) :
    ∀ (g : Graph) (v : Vertex) (acc : ℚ),
      allPairsStored g (v :: rest) = false →
      (tvswGo g v rest acc).1 = none := by
  induction rest with
  | nil =>
    intro g v acc h
    simp [allPairsStored, consecutivePairs] at h
  | cons v2 rest2 ih =>
    intro g v acc h
    rcases hl : alistLookup g.adjacency_list v with _ | inner
    · simp [tvswGo, Graph.dget, hl, alistLookup]
    · rcases he : alistLookup inner v2 with _ | e
      · simp [tvswGo, Graph.dget, hl, he]
      · have h2 : allPairsStored g (v2 :: rest2) = false := by
          simp only [allPairsStored, consecutivePairs, List.all_cons,
            storedEdgeWeight, hl, he, Option.isSome_some, Option.map_some,
            Bool.true_and] at h
          simpa [allPairsStored] using h
        simp only [tvswGo, Graph.dget, hl, he]
        exact ih g v2 (acc + e.weight) h2

/-- C6 (counterexample): the empty vertex sequence has all of its (zero)
consecutive pairs stored, yet `total_vertex_sequence_weight` fails
(`IndexError` on `vertex_sequence[0]`) instead of returning the sum 0. -/
theorem c6_counterexample_empty_sequence :
    allPairsStored complete_diamond [] = true ∧
    (complete_diamond.total_vertex_sequence_weight []).1 = none ∧
    (complete_diamond.total_vertex_sequence_weight []).1 ≠
      some (specTotalWeight complete_diamond []) := by
  decide

/-- C6 (amended): for every *nonempty* vertex sequence, if every
consecutive pair has a stored edge the call returns exactly the sum of
those edge weights, and otherwise it fails with a lookup error; on the
fully connected diamond (a,b,c,d) totals 1.5 and (a,d) totals 2.0. -/
theorem c6_total_weight_sums_stored_edges :
    (∀ (g : Graph) (v : Vertex) (rest : List Vertex),
      (allPairsStored g (v :: rest) = true →
        (g.total_vertex_sequence_weight (v :: rest)).1 =
          some (specTotalWeight g (v :: rest))) ∧
      (allPairsStored g (v :: rest) = false →
        (g.total_vertex_sequence_weight (v :: rest)).1 = none)) ∧
    (complete_diamond.total_vertex_sequence_weight [va, vb, vc, vd]).1 =
      some (3/2) ∧
    (complete_diamond.total_vertex_sequence_weight [va, vd]).1 = some 2 := by
  refine ⟨fun g v rest => ⟨fun h => ?_, fun h => ?_⟩, by decide, by decide⟩
  · rw [Graph.total_vertex_sequence_weight, tvswGo_all_stored rest g v 0 h]
    simp
  · have := tvswGo_missing_pair rest g v 0 h
    simpa [Graph.total_vertex_sequence_weight] using this

/-- C6 (witness): the amended theorem applied on the fully connected
diamond to the stored path (a,b,c,d) and to the unstored pair (b,a). -/
theorem c6_total_weight_witness :
    (complete_diamond.total_vertex_sequence_weight [va, vb, vc, vd]).1 =
      some (specTotalWeight complete_diamond [va, vb, vc, vd]) ∧
    (complete_diamond.total_vertex_sequence_weight [vb, va]).1 = none :=
  ⟨(c6_total_weight_sums_stored_edges.1 complete_diamond va [vb, vc, vd]).1
      (by decide),
   (c6_total_weight_sums_stored_edges.1 complete_diamond vb [va]).2 (by decide)⟩

/-- C7: `edge_factory` (and `add_edge`, which calls it) rejects a
self-loop for every weight and directedness flag, and succeeds on every
pair of distinct names. -/
theorem c7_edge_factory_rejects_self_loops :
    ∀ (name1 name2 : String) (w : ℚ) (d : Bool) (g : Graph),
      (name1 = name2 →
        edge_factory name1 name2 w d = none ∧ g.add_edge name1 name2 w = none) ∧
      (name1 ≠ name2 → (edge_factory name1 name2 w d).isSome = true) := by
  intro name1 name2 w d g
  refine ⟨fun h => ⟨?_, ?_⟩, fun h => ?_⟩
  · simp [edge_factory, h]
  · simp [Graph.add_edge, edge_factory, h]
  · cases d <;> simp [edge_factory, h]

/-- C7 (witness): the self-loop ("a","a") is rejected by the factory and
by `add_edge`; the edge ("a","b") is constructed. -/
theorem c7_edge_factory_witness :
    (edge_factory "a" "a" (1/2) false = none ∧
      (⟨"g", true, []⟩ : Graph).add_edge "a" "a" (1/2) = none) ∧
    (edge_factory "a" "b" (1/2) true).isSome = true :=
  ⟨(c7_edge_factory_rejects_self_loops "a" "a" (1/2) false ⟨"g", true, []⟩).1 rfl,
   (c7_edge_factory_rejects_self_loops "a" "b" (1/2) true ⟨"g", true, []⟩).2
     (by decide)⟩

/-- C8: an unrecognized strategy name makes `shortest_path` return the
distinct `NotImplementedError` value without running a traversal; each of
the three recognized names dispatches to its traversal and returns the
visited-map entry of the target, which is the empty sequence whenever the
target was never visited. -/
theorem c8_shortest_path_dispatch :
    ∀ (g : Graph) (n1 n2 search : String) (fuel : Nat),
      (search ≠ "dfs-nonrecursive" → search ≠ "dfs-recursive" → search ≠ "bfs" →
        g.shortest_path n1 n2 search fuel = .notImplementedErr) ∧
      g.shortest_path n1 n2 "dfs-nonrecursive" fuel =
        extractPath (g.dfs_traversal ⟨n1⟩ false fuel) ⟨n2⟩ ∧
      g.shortest_path n1 n2 "dfs-recursive" fuel =
        extractPath (g.dfs_traversal ⟨n1⟩ true fuel) ⟨n2⟩ ∧
      g.shortest_path n1 n2 "bfs" fuel =
        extractPath (g.bfs_traversal ⟨n1⟩ fuel) ⟨n2⟩ ∧
      (∀ (visited : Visited) (g2 : Graph), alistLookup visited ⟨n2⟩ = none →
        extractPath (.ok visited g2) ⟨n2⟩ = .path []) := by
  intro g n1 n2 search fuel
  refine ⟨fun h1 h2 h3 => ?_, rfl, rfl, rfl, fun visited g2 h => ?_⟩
  · simp [Graph.shortest_path, h1, h2, h3]
  · simp [extractPath, h]

/-- C8 (witness): the dispatch theorem applied to the unknown strategy
"dijkstra" and to an unvisited target. -/
theorem c8_shortest_path_witness :
    (⟨"g", true, []⟩ : Graph).shortest_path "a" "b" "dijkstra" 3 =
      .notImplementedErr ∧
    extractPath (.ok [] ⟨"g", true, []⟩) ⟨"b"⟩ = .path [] :=
  ⟨(c8_shortest_path_dispatch ⟨"g", true, []⟩ "a" "b" "dijkstra" 3).1
      (by decide) (by decide) (by decide),
   (c8_shortest_path_dispatch ⟨"g", true, []⟩ "a" "b" "dijkstra" 3).2.2.2.2
     [] ⟨"g", true, []⟩ rfl⟩

/-- C9: reading the adjacency `defaultdict` with a vertex that has no
entry appends a fresh empty entry for it: `neighbors`, a two-vertex
`total_vertex_sequence_weight` query, and the non-recursive DFS traversal
(on a directed graph) all leave the key list extended by the queried
vertex, so key set and iteration order differ from before. -/
theorem c9_read_queries_insert_adjacency_entry :
    ∀ (g : Graph) (v : Vertex), alistLookup g.adjacency_list v = none →
      (adjKeys (g.neighbors v).2 = adjKeys g ++ [v] ∧
        adjKeys (g.neighbors v).2 ≠ adjKeys g) ∧
      (∀ v2 : Vertex,
        adjKeys (g.total_vertex_sequence_weight [v, v2]).2 = adjKeys g ++ [v]) ∧
      (g.directed = true → ∀ fuel : Nat,
        g.dfs_traversal v false fuel =
          .ok [(v, [v])]
            { g with adjacency_list := g.adjacency_list ++ [(v, [])] }) := by
  intro g v h
  have hkeys : adjKeys (g.neighbors v).2 = adjKeys g ++ [v] := by
    simp only [Graph.neighbors, Graph.dget, h]
    split <;> simp [adjKeys]
  refine ⟨⟨hkeys, ?_⟩, fun v2 => ?_, fun hdir fuel => ?_⟩
  · rw [hkeys]
    intro heq
    have := congrArg List.length heq
    simp at this
  · simp [Graph.total_vertex_sequence_weight, tvswGo, Graph.dget, h,
      alistLookup, adjKeys]
  · simp [Graph.dfs_traversal, Graph.visit_vertex_neighbors, vget,
      alistLookup, alistSet, Graph.dfs_non_recursive,
      Graph.push_unvisited_neighbors, Graph.neighbors, Graph.dget, h, hdir,
      pushFold, dfsNonRecLoop]

/-- C9 (witness): the theorem applied to the diamond graph and the vertex
d, which has no outer adjacency entry there. -/
theorem c9_read_queries_witness :
    adjKeys (diamond.neighbors vd).2 = adjKeys diamond ++ [vd] ∧
    adjKeys (diamond.total_vertex_sequence_weight [vd, va]).2 =
      adjKeys diamond ++ [vd] ∧
    diamond.dfs_traversal vd false 7 =
      .ok [(vd, [vd])]
        { diamond with adjacency_list := diamond.adjacency_list ++ [(vd, [])] } :=
  ⟨(c9_read_queries_insert_adjacency_entry diamond vd (by decide)).1.1,
   (c9_read_queries_insert_adjacency_entry diamond vd (by decide)).2.1 va,
   (c9_read_queries_insert_adjacency_entry diamond vd (by decide)).2.2 rfl 7⟩

/-- Computation of `add_edge` on distinct names: the stored edge is the
`DirectedEdge` of the two arguments in order. -/
theorem add_edge_eq (g : Graph) (n1 n2 : String) (w : ℚ) (hne : n1 ≠ n2) :
    g.add_edge n1 n2 w =
      some ⟨(g.dget ⟨n1⟩).2.name, (g.dget ⟨n1⟩).2.directed,
        alistSet (g.dget ⟨n1⟩).2.adjacency_list ⟨n1⟩
          (alistSet (g.dget ⟨n1⟩).1 ⟨n2⟩ (.DirectedEdge ⟨n1⟩ ⟨n2⟩ w))⟩ := by
  simp [Graph.add_edge, edge_factory, hne, Edge.vertex1, Edge.vertex2]

/-- C10: every edge stored by `add_edge` is a `DirectedEdge` built with
the factory's default `directed=True`, stored under the first-argument
vertex and keyed by the second (no canonical endpoint swap, for any graph
directedness); a graph whose edges are all `DirectedEdge`s stays that way;
and on an undirected graph the edge added as ("b","a") is stored under b
unswapped and is reachable from a only through the reverse scan of
`neighbors` (the directed variant of the same graph yields nothing). -/
theorem c10_add_edge_stores_directed :
    (∀ (g : Graph) (n1 n2 : String) (w : ℚ) (g2 : Graph),
      g.add_edge n1 n2 w = some g2 →
      (alistLookup g2.adjacency_list ⟨n1⟩).bind
          (fun inner => alistLookup inner ⟨n2⟩) =
        some (.DirectedEdge ⟨n1⟩ ⟨n2⟩ w) ∧
      (allDirectedEdges g = true → allDirectedEdges g2 = true)) ∧
    (buildGraph "h" false [("b", "a", 1/2)]).adjacency_list =
      [(vb, [(va, .DirectedEdge vb va (1/2))])] ∧
    ((buildGraph "h" false [("b", "a", 1/2)]).neighbors va).1 =
      [(vb, .DirectedEdge vb va (1/2))] ∧
    ((buildGraph "h" true [("b", "a", 1/2)]).neighbors va).1 = [] := by
  refine ⟨?_, by decide, by decide, by decide⟩
  intro g n1 n2 w g2 hadd
  by_cases hne : n1 = n2
  · simp [Graph.add_edge, edge_factory, hne] at hadd
  · rw [add_edge_eq g n1 n2 w hne] at hadd
    have hg2 := Option.some.inj hadd
    subst hg2
    rcases hl : alistLookup g.adjacency_list (⟨n1⟩ : Vertex) with _ | inner
    · constructor
      · simp [Graph.dget, hl, alistLookup_alistSet_self]
      · intro hall
        rw [allDirectedEdges, List.all_eq_true]
        simp only [Graph.dget, hl]
        rintro ⟨k, innerK⟩ hmem
        rcases mem_alistSet _ _ _ _ hmem with heq | hmem2
        · cases heq
          simp [alistSet, Edge.isDirectedEdge]
        · rcases List.mem_append.mp hmem2 with hmem3 | hmem3
          · rw [allDirectedEdges, List.all_eq_true] at hall
            exact hall _ hmem3
          · simp at hmem3
            simp [hmem3.2]
    · constructor
      · simp [Graph.dget, hl, alistLookup_alistSet_self]
      · intro hall
        rw [allDirectedEdges, List.all_eq_true]
        simp only [Graph.dget, hl]
        rintro ⟨k, innerK⟩ hmem
        rcases mem_alistSet _ _ _ _ hmem with heq | hmem2
        · cases heq
          rw [List.all_eq_true]
          rintro ⟨k2, e2⟩ hmem3
          rcases mem_alistSet _ _ _ _ hmem3 with heq2 | hmem4
          · cases heq2
            simp [Edge.isDirectedEdge]
          · rw [allDirectedEdges, List.all_eq_true] at hall
            have hz := hall _ (alistLookup_mem _ _ _ hl)
            rw [List.all_eq_true] at hz
            exact hz _ hmem4
        · rw [allDirectedEdges, List.all_eq_true] at hall
          exact hall _ hmem2

/-- C10 (witness): the theorem applied to adding the edge ("a","b",1) to
an empty directed graph. -/
theorem c10_add_edge_witness :
    (alistLookup (⟨"w", true,
          [(va, [(vb, Edge.DirectedEdge va vb 1)])]⟩ : Graph).adjacency_list
        va).bind (fun inner => alistLookup inner vb) =
      some (.DirectedEdge va vb 1) ∧
    allDirectedEdges
      (⟨"w", true, [(va, [(vb, Edge.DirectedEdge va vb 1)])]⟩ : Graph) = true :=
  ⟨(c10_add_edge_stores_directed.1 ⟨"w", true, []⟩ "a" "b" 1
      ⟨"w", true, [(va, [(vb, Edge.DirectedEdge va vb 1)])]⟩ (by decide)).1,
   (c10_add_edge_stores_directed.1 ⟨"w", true, []⟩ "a" "b" 1
      ⟨"w", true, [(va, [(vb, Edge.DirectedEdge va vb 1)])]⟩ (by decide)).2
     (by decide)⟩

end RemainingClaims

end GraphPy
